import Mathlib

/-!
Verification development for the pyresto core (src/pyresto/core.py): a shallow
embedding of the resource-identity, relation-resolution and lazy-fetch core of
the library, together with theorems settling the specified properties.

Attribute dictionaries are embedded as association lists from field names to a
small value type `PVal`; Python `None` is the value `PVal.vNone`.  Fallible
operations return `Option` or `Except`.  Unbounded loops (the attribute-miss
fetch protocol, lazy pagination) take an explicit fuel parameter.
-/

/-- A value stored in a model instance's attribute dictionary.  `vNone` is
Python's `None`. -/
inductive PVal where
  | vNone
  | vStr (s : String)
  | vInt (n : Int)
  deriving DecidableEq, Repr

/-- Attribute lookup in an instance dictionary: the first binding wins. -/
def lookupAttr (attrs : List (String × PVal)) (name : String) : Option PVal :=
  (attrs.find? (fun p => p.1 == name)).map Prod.snd

/-- Assignment `d[k] = v` on an association list: replace the first binding of `k`,
or append a new one. -/
def setAttr (attrs : List (String × PVal)) (k : String) (v : PVal) :
    List (String × PVal) :=
  if attrs.any (fun p => p.1 == k) then
    attrs.map (fun p => if p.1 == k then (k, v) else p)
  else attrs ++ [(k, v)]

/-- Update `self.__dict__.update(data)`: fold the fetched bindings into the
instance dictionary, later bindings overriding earlier ones. -/
def mergeAttrs (old new : List (String × PVal)) : List (String × PVal) :=
  new.foldl (fun acc kv => setAttr acc kv.1 kv.2) old

/-- Re-route one colliding relation field name: `attrs["__" + k] = attrs.pop(k)`
as done for overlapping names in `Model.__fetch` and `Model.__init__`. -/
def rerouteOne (attrs : List (String × PVal)) (k : String) :
    List (String × PVal) :=
  match lookupAttr attrs k with
  | some v => setAttr (attrs.filter (fun p => !(p.1 == k))) ("__" ++ k) v
  | none => attrs

/-- Re-route every fetched field whose name collides with a class-level
relation descriptor (`overlaps = set(cls.__dict__) & set(data)` restricted to
Model-valued entries, here the parameter `relNames`). -/
def rerouteRelations (relNames : List String) (dataKeys : List String)
    (attrs : List (String × PVal)) : List (String × PVal) :=
  (relNames.filter (fun k => dataKeys.contains k)).foldl rerouteOne attrs

/-- The per-instance state relevant to the attribute-miss fetch protocol:
the instance dictionary and the `_fetched` flag. -/
structure FetchInst where
  attrs : List (String × PVal)
  fetched : Bool
  deriving DecidableEq, Repr

/-- Embedding of `Model.__fetch`: one transport call for the instance's current path.
`resp` is the parsed response body for that path (the empty list standing for
a falsy body, i.e. `None` or `{}`).  Only a truthy body is merged and only
then is `_fetched` set. -/
def doFetch (relNames : List String) (resp : List (String × PVal))
    (s : FetchInst) : FetchInst :=
  if resp.isEmpty then s
  else
    { attrs := rerouteRelations relNames (resp.map Prod.fst)
        (mergeAttrs s.attrs resp),
      fetched := true }

/-- Outcome of an attribute read through `Model.__getattr__`. -/
inductive GetRes where
  | found (v : PVal)
  | attrError
  | outOfFuel
  deriving DecidableEq, Repr

/-- Reading `getattr(self, name)` routed through `Model.__getattr__`: a missing
attribute on a fetched instance raises `AttributeError`; on an unfetched
instance it calls `Model.__fetch` and retries the read.  The result carries
the final instance state and the number of transport fetches performed; the
fuel bounds the retry recursion. -/
def pyGetattr (relNames : List String) (resp : List (String × PVal)) :
    Nat → FetchInst → String → GetRes × FetchInst × Nat
  | 0, s, _ => (GetRes.outOfFuel, s, 0)
  | fuel + 1, s, name =>
    match lookupAttr s.attrs name with
    | some v => (GetRes.found v, s, 0)
    | none =>
      if s.fetched then (GetRes.attrError, s, 0)
      else
        let s1 := doFetch relNames resp s
        let r := pyGetattr relNames resp fuel s1 name
        (r.1, r.2.1, r.2.2 + 1)

/-- Claim C1 (code bug evidence): on an unfetched instance missing field `x`,
a transport response with an empty body leaves `_fetched` false and
`__getattr__` keeps re-fetching — three fetches in three steps of fuel and no
`AttributeError` — contradicting the fetch-once protocol; whereas a truthy
response body performs exactly one fetch, transitions the instance to fetched,
and the still-missing field then fails immediately with `AttributeError`. -/
theorem getattr_empty_body_refetches :
    pyGetattr [] [] 3 ⟨[], false⟩ ("x") =
      (GetRes.outOfFuel, ⟨[], false⟩, 3) ∧
    pyGetattr [] [(("y"), PVal.vInt 1)] 3 ⟨[], false⟩ ("x") =
      (GetRes.attrError, ⟨[(("y"), PVal.vInt 1)], true⟩, 1) := by
  decide

/-- The per-instance data consulted by the key resolver (`Model._pk_vals` and
`Model._id`): the `_pk` field-name tuple, the instance dictionary and the
`__pk_vals` cache slot. -/
structure KCore where
  pk : List String
  attrs : List (String × PVal)
  cache : Option (List PVal)
  deriving DecidableEq, Repr

/-- A model instance together with its ownership chain: `leaf` has no
`_pyresto_owner`, `owned` carries one. -/
inductive KInst where
  | leaf (core : KCore)
  | owned (core : KCore) (owner : KInst)
  deriving DecidableEq, Repr

/-- The instance's own key data, whichever constructor it uses. -/
def KInst.core : KInst → KCore
  | .leaf c => c
  | .owned c _ => c

/-- Python truthiness of the `__pk_vals` slot: truthy exactly when it holds a
nonempty tuple. -/
def cacheTruthy : Option (List PVal) → Bool
  | some (_ :: _) => true
  | _ => false

/-- Embedding of `Model._id`: the last cached key value when `__pk_vals` is truthy, else
`getattr(self, self._pk[-1])` (read from the instance dictionary; `none` is an
attribute error, and an empty `_pk` is an index error). -/
def instIdCore (c : KCore) : Option PVal :=
  if cacheTruthy c.cache then (c.cache.getD []).getLast?
  else
    match c.pk.getLast? with
    | some k => lookupAttr c.attrs k
    | none => none

/-- Embedding of `Model._pk_vals`, read-only evaluation: the cached tuple when truthy; else
for an owned instance the owner's `_pk_vals` truncated to `len(_pk) - 1`
entries with this instance's `_id` appended, and for an ownerless instance
`len(_pk) - 1` copies of `None` followed by `_id`. -/
def pkVals : KInst → Option (List PVal)
  | .leaf c =>
    if cacheTruthy c.cache then c.cache
    else
      (instIdCore c).map
        (fun v => List.replicate (c.pk.length - 1) PVal.vNone ++ [v])
  | .owned c o =>
    if cacheTruthy c.cache then c.cache
    else
      match pkVals o, instIdCore c with
      | some ov, some v => some (ov.take (c.pk.length - 1) ++ [v])
      | _, _ => none

/-- Store a value into the `__pk_vals` cache slot of an instance. -/
def withCache : KInst → Option (List PVal) → KInst
  | .leaf c, v => .leaf { c with cache := v }
  | .owned c o, v => .owned { c with cache := v } o

/-- One access to the `_pk_vals` property with its caching side effect: when
the cache slot is truthy return it unchanged, else compute the tuple, store
it, and return it (an error computes nothing and stores nothing). -/
def pkValsAccess (i : KInst) : Option (List PVal) × KInst :=
  if cacheTruthy i.core.cache then (i.core.cache, i)
  else
    match pkVals i with
    | some vs => (some vs, withCache i (some vs))
    | none => (none, i)

theorem core_withCache (i : KInst) (v : Option (List PVal)) :
    (withCache i v).core = { i.core with cache := v } := by
  cases i <;> rfl

theorem pkVals_leaf_falsy (c : KCore) (h : cacheTruthy c.cache = false) :
    pkVals (KInst.leaf c) =
      (instIdCore c).map
        (fun v => List.replicate (c.pk.length - 1) PVal.vNone ++ [v]) := by
  simp [pkVals, h]

theorem pkVals_owned_falsy (c : KCore) (o : KInst)
    (h : cacheTruthy c.cache = false) :
    pkVals (KInst.owned c o) =
      match pkVals o, instIdCore c with
      | some ov, some v => some (ov.take (c.pk.length - 1) ++ [v])
      | _, _ => none := by
  simp [pkVals, h]

theorem pkVals_fresh_ne_nil (i : KInst) (vs : List PVal)
    (h : cacheTruthy i.core.cache = false) (hv : pkVals i = some vs) :
    vs ≠ [] := by
  cases i with
  | leaf c =>
    rw [pkVals_leaf_falsy c h] at hv
    cases hid : instIdCore c with
    | none => simp [hid] at hv
    | some v =>
      rw [hid] at hv
      have hv2 : List.replicate (c.pk.length - 1) PVal.vNone ++ [v] = vs :=
        Option.some_injective _ hv
      subst hv2
      simp
  | owned c o =>
    rw [pkVals_owned_falsy c o h] at hv
    cases ho : pkVals o with
    | none => simp [ho] at hv
    | some ov =>
      cases hid : instIdCore c with
      | none => simp [ho, hid] at hv
      | some v =>
        simp only [ho, hid, Option.some_inj] at hv
        subst hv
        simp

/-- Claim C2: for an instance with an owner whose cache slot is unset, the
computed key tuple is the owner's tuple truncated to `len(_pk) - 1` entries
with the instance's own last-key-field value appended, so dropping its last
entry recovers exactly that owner prefix; for an ownerless instance all but
the last slot hold the unknown marker (`None`) and the last holds the own key
value; and once an access has computed a tuple, a further access returns the
same tuple and leaves the instance unchanged. -/
theorem pk_vals_inheritance (c : KCore) (o : KInst) (v : PVal) (ov : List PVal)
    (hc : cacheTruthy c.cache = false)
    (hid : instIdCore c = some v)
    (ho : pkVals o = some ov) :
    pkVals (KInst.owned c o) = some (ov.take (c.pk.length - 1) ++ [v]) ∧
    (ov.take (c.pk.length - 1) ++ [v]).dropLast = ov.take (c.pk.length - 1) ∧
    (∀ c0 : KCore, cacheTruthy c0.cache = false → instIdCore c0 = some v →
      pkVals (KInst.leaf c0) =
        some (List.replicate (c0.pk.length - 1) PVal.vNone ++ [v])) ∧
    (∀ (i i2 : KInst) (vs : List PVal), pkValsAccess i = (some vs, i2) →
      pkValsAccess i2 = (some vs, i2)) := by
  refine ⟨?_, ?_, ?_, ?_⟩
  · rw [pkVals_owned_falsy c o hc, ho, hid]
  · exact List.dropLast_concat
  · intro c0 hc0 hid0
    rw [pkVals_leaf_falsy c0 hc0, hid0]
    rfl
  · intro i i2 vs hacc
    unfold pkValsAccess at hacc
    by_cases ht : cacheTruthy i.core.cache = true
    · rw [if_pos ht] at hacc
      have h1 : i.core.cache = some vs := congrArg Prod.fst hacc
      have h2 : i = i2 := congrArg Prod.snd hacc
      subst h2
      have ht2 : cacheTruthy (some vs) = true := h1 ▸ ht
      simp [pkValsAccess, h1, ht2]
    · simp only [Bool.not_eq_true] at ht
      rw [if_neg (by rw [ht]; exact Bool.false_ne_true)] at hacc
      cases hv : pkVals i with
      | none => simp [hv] at hacc
      | some vs0 =>
        rw [hv] at hacc
        have h1 : some vs0 = some vs := congrArg Prod.fst hacc
        have hvs : vs0 = vs := by simpa using h1
        subst hvs
        have h2 : withCache i (some vs0) = i2 := congrArg Prod.snd hacc
        subst h2
        have hne : vs0 ≠ [] := pkVals_fresh_ne_nil i vs0 ht hv
        have htr : cacheTruthy (some vs0) = true := by
          cases vs0 with
          | nil => exact absurd rfl hne
          | cons a l => rfl
        simp [pkValsAccess, core_withCache, htr]

/-- Witness for C2 at a two-field key owned by a one-field-key owner. -/
theorem pk_vals_inheritance_witness :
    cacheTruthy (none : Option (List PVal)) = false ∧
    instIdCore ⟨[("k1"), ("k2")], [(("k2"), PVal.vInt 7)], none⟩ =
      some (PVal.vInt 7) ∧
    pkVals (KInst.leaf ⟨[("k1")], [(("k1"), PVal.vInt 3)], none⟩) =
      some [PVal.vInt 3] ∧
    pkVals (KInst.owned ⟨[("k1"), ("k2")], [(("k2"), PVal.vInt 7)], none⟩
        (KInst.leaf ⟨[("k1")], [(("k1"), PVal.vInt 3)], none⟩)) =
      some ([PVal.vInt 3].take 1 ++ [PVal.vInt 7]) := by
  refine ⟨by decide, by decide, by decide, ?_⟩
  exact (pk_vals_inheritance ⟨[("k1"), ("k2")], [(("k2"), PVal.vInt 7)], none⟩
    (KInst.leaf ⟨[("k1")], [(("k1"), PVal.vInt 3)], none⟩)
    (PVal.vInt 7) [PVal.vInt 3] (by decide) (by decide) (by decide)).1

/-- The value of the Python attribute lookup `instance._auth`: the
instance-level binding when present, else the class attribute. -/
def instanceAuthLookup (ov clsA : Option String) : Option String :=
  match ov with
  | some a => some a
  | none => clsA

/-- Auth resolution performed by the `normalize_auth` decorator around
`Model.update_with_patch`, `Model.update_with_put` and `Model.delete`:
`auth = kwargs.get('auth')`, and when that is `None`,
`auth = cls._auth or instance._auth`.  `callSite` is the call-site keyword,
`clsA` the class-level `_auth`, `ov` the instance-level binding. -/
def resolveAuth (callSite clsA ov : Option String) : Option String :=
  match callSite with
  | some a => some a
  | none =>
    match clsA with
    | some a => some a
    | none => instanceAuthLookup ov clsA

/-- Modelled from the spec: the resolution precedence the specification
states for `AuthContext` — explicit call-site value, else instance-level
override, else type-level default, else none. -/
def resolveAuthSpec (callSite clsA ov : Option String) : Option String :=
  match callSite with
  | some a => some a
  | none =>
    match instanceAuthLookup ov clsA with
    | some a => some a
    | none => clsA

/-- Claim C3 (code bug evidence): with no call-site auth, an instance-level
override `inst` and a class-level default `cls`, the code resolves to the
class-level default while the specified precedence resolves to the
instance-level override; an explicit call-site value does win in both. -/
theorem auth_precedence_divergence :
    resolveAuth none (some ("cls")) (some ("inst")) = some ("cls") ∧
    resolveAuthSpec none (some ("cls")) (some ("inst")) = some ("inst") ∧
    resolveAuth (some ("call")) (some ("cls")) (some ("inst")) =
      some ("call") := by
  decide

/-- The set of keys submitted by `Model.update_with_patch`: a truthy (i.e.
nonempty) caller-supplied `keys` set is intersected with `instance._changed`,
while `keys=None` or an empty set falls back to `instance._changed`
verbatim. -/
def patchSubmitted (keys : Option (Finset String)) (changed : Finset String) :
    Finset String :=
  match keys with
  | some k => if k.Nonempty then k ∩ changed else changed
  | none => changed

/-- The PATCH payload built by `Model.update_with_patch`:
`dict((key, instance.__dict__[key]) for key in keys)` — defined on exactly
the submitted keys, each mapped to its current attribute value. -/
def patchPayload (keys : Option (Finset String)) (changed : Finset String)
    (attrs : String → PVal) : String → Option PVal :=
  fun f => if f ∈ patchSubmitted keys changed then some (attrs f) else none

/-- Removal `instance._changed -= keys` after a successful PATCH. -/
def changedAfterPatch (keys : Option (Finset String))
    (changed : Finset String) : Finset String :=
  changed \ patchSubmitted keys changed

/-- Claim C4 counterexample: with the explicit subset `∅` and
`ChangedSet = {a}`, the code submits and includes field `a`, whereas the
claimed intersection `∅ ∩ {a}` is empty — an explicit empty subset is treated
like an absent one. -/
theorem patch_empty_subset_counterexample :
    patchSubmitted (some ∅) {("a")} = {("a")} ∧
    ((∅ : Finset String) ∩ {("a")}) = ∅ ∧
    patchPayload (some ∅) {("a")} (fun _ => PVal.vInt 1) ("a") =
      some (PVal.vInt 1) := by
  refine ⟨?_, ?_, ?_⟩
  · simp [patchSubmitted]
  · simp
  · simp [patchPayload, patchSubmitted]

/-- Claim C4 as amended: for every call, when the supplied subset is
nonempty the submitted-key set is exactly the intersection of the subset
with `ChangedSet`; when the supplied subset is empty, or no subset is
supplied, it is `ChangedSet` verbatim (Python truthiness treats an explicit
empty set like an absent one).  The payload maps exactly the submitted keys
to their current values, no field outside them is ever included, and after a
successful patch exactly the submitted keys are removed from `ChangedSet`,
any other changed field remaining marked. -/
theorem patch_payload_minimal (keys : Option (Finset String))
    (changed : Finset String) (attrs : String → PVal) :
    (∀ k, keys = some k → k.Nonempty →
      patchSubmitted keys changed = k ∩ changed) ∧
    (∀ k, keys = some k → ¬k.Nonempty →
      patchSubmitted keys changed = changed) ∧
    (keys = none → patchSubmitted keys changed = changed) ∧
    (∀ f, f ∈ patchSubmitted keys changed →
      patchPayload keys changed attrs f = some (attrs f)) ∧
    (∀ f, f ∉ patchSubmitted keys changed →
      patchPayload keys changed attrs f = none) ∧
    (∀ f, f ∈ changedAfterPatch keys changed ↔
      f ∈ changed ∧ f ∉ patchSubmitted keys changed) := by
  refine ⟨?_, ?_, ?_, ?_, ?_, ?_⟩
  · intro k hk hne
    subst hk
    simp [patchSubmitted, hne]
  · intro k hk hne
    subst hk
    simp [patchSubmitted, hne]
  · intro hk
    subst hk
    rfl
  · intro f hf
    simp [patchPayload, hf]
  · intro f hf
    simp [patchPayload, hf]
  · intro f
    simp [changedAfterPatch, Finset.mem_sdiff]

/-- Witness for C4, exercising both the nonempty subset `{a, b}` against
`ChangedSet = {b, c}` and the explicit empty subset against the same
`ChangedSet`. -/
theorem patch_payload_minimal_witness :
    patchSubmitted (some {("a"), ("b")}) {("b"), ("c")} =
      ({("a"), ("b")} : Finset String) ∩ {("b"), ("c")} ∧
    patchSubmitted (some (∅ : Finset String)) {("b"), ("c")} =
      {("b"), ("c")} :=
  ⟨(patch_payload_minimal (some {("a"), ("b")}) {("b"), ("c")}
      (fun _ => PVal.vNone)).1 {("a"), ("b")} rfl ⟨("a"), by decide⟩,
    (patch_payload_minimal (some (∅ : Finset String)) {("b"), ("c")}
      (fun _ => PVal.vNone)).2.1 ∅ rfl (by simp)⟩

/-- The caller-visible contents of an explicitly supplied `keys` set after
`Model.update_with_patch` returns: a truthy set was intersected in place
(`keys &= instance._changed`), while an empty set was left untouched (the
falsy branch rebinds the local name instead of mutating the argument). -/
def callerSetAfterPatch (keys changed : Finset String) : Finset String :=
  if keys.Nonempty then keys ∩ changed else keys

/-- Claim C10: after a patch call with an explicit `keys` set, the
caller-supplied set holds exactly its intersection with `ChangedSet` — also
in the untouched empty-set case, where the contents already equal the
intersection — and is therefore contained in the set of keys actually
submitted. -/
theorem patch_keys_inplace (keys changed : Finset String) :
    callerSetAfterPatch keys changed = keys ∩ changed ∧
    callerSetAfterPatch keys changed ⊆ patchSubmitted (some keys) changed := by
  constructor
  · unfold callerSetAfterPatch
    by_cases hne : keys.Nonempty
    · simp [hne]
    · rw [Finset.not_nonempty_iff_eq_empty] at hne
      subst hne
      simp
  · unfold callerSetAfterPatch patchSubmitted
    by_cases hne : keys.Nonempty
    · simp [hne]
    · rw [Finset.not_nonempty_iff_eq_empty] at hne
      subst hne
      simp

/-- The per-owner-instance cache of a relation descriptor, keyed by owner
instance identity (Model defines `__eq__` but no `__hash__`, so CPython2
dictionary keying of instances falls back to the identity-based default
hash). -/
def RelCache (α : Type) := Nat → Option α

/-- The caching skeleton shared by `Many.__get__` and `Foreign.__get__`:
if the owner instance has no cache entry, run the descriptor body (`build`:
the eager or lazy collection construction for `Many`, the embedded
construction or keyed `get` for `Foreign`) and store its result; then return
the cached entry. -/
def relGet {α : Type} (cache : RelCache α) (inst : Nat) (build : Nat → α) :
    α × RelCache α :=
  match cache inst with
  | some v => (v, cache)
  | none =>
    let v := build inst
    (v, fun j => if j = inst then some v else cache j)

/-- Claim C5: a second access of a `Many`/`Foreign` field on the same owning
instance returns the identical cached object and leaves the cache unchanged;
an access on one owning instance never reads or writes another instance's
entry; and an existing entry is never recomputed or invalidated by further
accesses. -/
theorem relation_cache_per_instance {α : Type} (cache : RelCache α)
    (i j : Nat) (build : Nat → α) (hij : j ≠ i) :
    (relGet (relGet cache i build).2 i build).1 = (relGet cache i build).1 ∧
    (relGet (relGet cache i build).2 i build).2 = (relGet cache i build).2 ∧
    (relGet cache i build).2 j = cache j ∧
    (∀ v, cache i = some v → relGet cache i build = (v, cache)) := by
  refine ⟨?_, ?_, ?_, ?_⟩
  · unfold relGet
    cases hc : cache i with
    | some v => simp [hc]
    | none => simp [hc]
  · unfold relGet
    cases hc : cache i with
    | some v => simp [hc]
    | none => simp [hc]
  · unfold relGet
    cases hc : cache i with
    | some v => simp [hc]
    | none => simp [hc, hij]
  · intro v hv
    unfold relGet
    rw [hv]

/-- Witness for C5 on the empty cache with owner instances 0 and 1. -/
theorem relation_cache_per_instance_witness :
    (relGet (relGet (fun _ => (none : Option Nat)) 0 (fun n => n + 5)).2 0
        (fun n => n + 5)).1 =
      (relGet (fun _ => (none : Option Nat)) 0 (fun n => n + 5)).1 ∧
    (relGet (fun _ => (none : Option Nat)) 0 (fun n => n + 5)).2 1 =
      (fun _ => (none : Option Nat)) 1 :=
  ⟨(relation_cache_per_instance (fun _ => none) 0 1 (fun n => n + 5)
      (by decide)).1,
    (relation_cache_per_instance (fun _ => none) 0 1 (fun n => n + 5)
      (by decide)).2.2.1⟩

/-- Embedding of `Many.__sanitize_data`: a falsy payload becomes the empty list, else the
optional preprocessor is applied, else the payload is passed through. -/
def sanitizeData (pre : Option (List PVal → List PVal)) (d : List PVal) :
    List PVal :=
  if d.isEmpty then []
  else
    match pre with
    | some p => p d
    | none => d

/-- One fetcher call produced by `Many.__make_fetcher`: a single-page
`_rest_call` (`fetch_all=False`) on the bound URL — modelled by the transport
oracle `T` mapping a URL to a page payload and an optional continuation
URL — followed by `__sanitize_data`; the continuation URL, when present,
determines the next fetcher. -/
def runFetcher (T : String → List PVal × Option String)
    (pre : Option (List PVal → List PVal)) (url : String) :
    List PVal × Option String :=
  (sanitizeData pre (T url).1, (T url).2)

/-- A `LazyList`: the record wrapper and the stored initial fetcher,
identified by the URL it is bound to (`none` when the chain is exhausted). -/
structure LazyListM (α : Type) where
  wrapper : PVal → α
  fetcherUrl : Option String

/-- One full iteration of `LazyList.__iter__` up to `fuel` pages, starting
from a local fetcher variable: returns the sequence of page URLs requested
and the raw records produced. -/
def lazyIterAux (T : String → List PVal × Option String)
    (pre : Option (List PVal → List PVal)) :
    Nat → Option String → List String × List PVal
  | _, none => ([], [])
  | 0, some _ => ([], [])
  | fuel + 1, some url =>
    let d := runFetcher T pre url
    let rest := lazyIterAux T pre fuel d.2
    (url :: rest.1, d.1 ++ rest.2)

/-- A full iteration over a `LazyList`: the generator reads the stored
fetcher into a local variable and never writes the object, so the resulting
`LazyListM` is returned unchanged alongside the requested URLs and the
wrapped records. -/
def lazyIterate {α : Type} (T : String → List PVal × Option String)
    (pre : Option (List PVal → List PVal)) (ll : LazyListM α) (fuel : Nat) :
    List String × List α × LazyListM α :=
  let r := lazyIterAux T pre fuel ll.fetcherUrl
  (r.1, r.2.map ll.wrapper, ll)

/-- The private continuation state of one in-flight iteration, advanced page
by page: running `n` steps returns the URLs requested so far and the
continuation for the rest of that iteration. -/
def iterRunSteps (T : String → List PVal × Option String)
    (pre : Option (List PVal → List PVal)) :
    Nat → Option String → List String × Option String
  | 0, s => ([], s)
  | _ + 1, none => ([], none)
  | n + 1, some url =>
    let d := runFetcher T pre url
    let r := iterRunSteps T pre n d.2
    (url :: r.1, r.2)

theorem iterRunSteps_none (T : String → List PVal × Option String)
    (pre : Option (List PVal → List PVal)) (n : Nat) :
    iterRunSteps T pre n none = ([], none) := by
  cases n <;> rfl

theorem iterRunSteps_split (T : String → List PVal × Option String)
    (pre : Option (List PVal → List PVal)) (k m : Nat) (s : Option String) :
    iterRunSteps T pre (k + m) s =
      ((iterRunSteps T pre k s).1 ++
        (iterRunSteps T pre m (iterRunSteps T pre k s).2).1,
       (iterRunSteps T pre m (iterRunSteps T pre k s).2).2) := by
  induction k generalizing s with
  | zero =>
    simp [iterRunSteps]
  | succ k ih =>
    cases s with
    | none =>
      simp [iterRunSteps_none]
    | some url =>
      have hkm : k + 1 + m = (k + m) + 1 := by omega
      rw [hkm]
      show (url :: (iterRunSteps T pre (k + m) (runFetcher T pre url).2).1,
          (iterRunSteps T pre (k + m) (runFetcher T pre url).2).2) = _
      rw [ih]
      rfl

/-- Claim C6: a full iteration over a lazy `Many` collection leaves the
`LazyList` unchanged, so a second full iteration issues exactly the same
sequence of page requests and yields the same records; and an iteration's
continuation state is private — running `k + m` steps is running `k` steps
and then `m` further steps from that iteration's own continuation, with no
other state involved. -/
theorem lazy_restartable {α : Type} (T : String → List PVal × Option String)
    (pre : Option (List PVal → List PVal)) (ll : LazyListM α)
    (fuel k m : Nat) (s : Option String) :
    (lazyIterate T pre ll fuel).2.2 = ll ∧
    lazyIterate T pre (lazyIterate T pre ll fuel).2.2 fuel =
      lazyIterate T pre ll fuel ∧
    iterRunSteps T pre (k + m) s =
      ((iterRunSteps T pre k s).1 ++
        (iterRunSteps T pre m (iterRunSteps T pre k s).2).1,
       (iterRunSteps T pre m (iterRunSteps T pre k s).2).2) := by
  exact ⟨rfl, rfl, iterRunSteps_split T pre k m s⟩

/-- An element of a `Many` collection's backing list: a raw record
dictionary, an already-constructed target-type instance (with its optional
`_pyresto_owner`), or a value of any other shape. -/
inductive Item where
  | idict (d : List (String × PVal))
  | iinst (fields : List (String × PVal)) (ownerId : Option Nat)
  | iother (v : PVal)
  deriving DecidableEq, Repr

/-- Errors surfaced by `WrappedList` access: an out-of-range index, or the
`TypeError` raised by `Many._with_owner`'s mapper for invalid relation
data. -/
inductive WErr where
  | indexOut
  | invalidRelationData
  deriving DecidableEq, Repr

/-- The mapper returned by `Many._with_owner(owner)`: a raw dict becomes a
new target-type instance owned by `owner`; an existing target-type instance
passes through unchanged; anything else raises `TypeError` ("Invalid type
passed to Many."). -/
def manyMapper (ownerId : Nat) : Item → Except WErr Item
  | .idict d => .ok (.iinst d (some ownerId))
  | .iinst f o => .ok (.iinst f o)
  | .iother _ => .error .invalidRelationData

/-- Test `isinstance(item, dict)`. -/
def Item.isDict : Item → Bool
  | .idict _ => true
  | _ => false

/-- The wrapper applied element by element, stopping at the first raised
error — the aggregate behaviour of `[wrapper(_) for _ in items]` and of the
generator returned by `WrappedList.__iter__`. -/
def mapWrap (w : Item → Except WErr Item) : List Item → Except WErr (List Item)
  | [] => .ok []
  | x :: xs =>
    match w x with
    | .error e => .error e
    | .ok y =>
      match mapWrap w xs with
      | .error e => .error e
      | .ok ys => .ok (y :: ys)

/-- Embedding of `WrappedList.__getitem__` at an integer index: read the backing element;
a raw dict is wrapped and the wrapped value stored back in place
(`self[key] = item`), any other element is returned as stored.  Returns the
produced item together with the backing list after the access. -/
def wlGetItem (w : Item → Except WErr Item) (bs : List Item) (i : Nat) :
    Except WErr (Item × List Item) :=
  match bs.get? i with
  | none => .error .indexOut
  | some item =>
    if item.isDict then
      match w item with
      | .ok m => .ok (m, bs.set i m)
      | .error e => .error e
    else .ok (item, bs)

/-- Embedding of `WrappedList.__getitem__` on a slice `[i:j]` (equally
`WrappedList.__getslice__`): if any element of the slice is a raw dict, every
element of the slice is passed through the wrapper and the wrapped slice is
stored back in place (`self[i:j] = items`); otherwise the slice is returned
as stored. -/
def wlGetSlice (w : Item → Except WErr Item) (bs : List Item) (i j : Nat) :
    Except WErr (List Item × List Item) :=
  let items := (bs.drop i).take (j - i)
  if items.any Item.isDict then
    match mapWrap w items with
    | .ok ws => .ok (ws, bs.take i ++ ws ++ bs.drop j)
    | .error e => .error e
  else .ok (items, bs)

/-- Embedding of `WrappedList.__iter__`: a generator wrapping each backing element on the
fly; it reads the backing list and never writes it, so the backing list is
returned unchanged alongside the produced records. -/
def wlIterate (w : Item → Except WErr Item) (bs : List Item) :
    Except WErr (List Item) × List Item :=
  (mapWrap w bs, bs)

theorem mapWrap_output_not_dict (o : Nat) (l : List Item) (ws : List Item)
    (h : mapWrap (manyMapper o) l = Except.ok ws) :
    ∀ y ∈ ws, y.isDict = false := by
  induction l generalizing ws with
  | nil =>
    simp only [mapWrap] at h
    cases h
    intro y hy
    cases hy
  | cons x xs ih =>
    simp only [mapWrap] at h
    cases hx : manyMapper o x with
    | error e => rw [hx] at h; cases h
    | ok y =>
      rw [hx] at h
      cases hxs : mapWrap (manyMapper o) xs with
      | error e => rw [hxs] at h; cases h
      | ok ys =>
        rw [hxs] at h
        cases h
        intro z hz
        rcases List.mem_cons.mp hz with hz | hz
        · subst hz
          cases x with
          | idict d => cases hx; rfl
          | iinst f ow => cases hx; rfl
          | iother v => cases hx
        · exact ih ys hxs z hz

theorem mapWrap_length (w : Item → Except WErr Item) (l ws : List Item)
    (h : mapWrap w l = Except.ok ws) : ws.length = l.length := by
  induction l generalizing ws with
  | nil =>
    simp only [mapWrap] at h
    cases h
    rfl
  | cons x xs ih =>
    simp only [mapWrap] at h
    cases hx : w x with
    | error e => rw [hx] at h; cases h
    | ok y =>
      rw [hx] at h
      cases hxs : mapWrap w xs with
      | error e => rw [hxs] at h; cases h
      | ok ys =>
        rw [hxs] at h
        cases h
        simp [ih ys hxs]

/-- Claim C7: element access on a raw dict record wraps it into an owned
target-type instance and stores the wrapped value back into the backing list
in place; a further access at that position returns the stored wrapped value
and changes nothing (wrap-once, memoize-in-place); wrapped output is never a
raw dict; a full iteration yields wrapped records while leaving the stored
backing values untouched; and slice access on a slice containing a raw dict
wraps every element of the slice, stores the wrapped slice back in place, and
a repeated access of that slice returns the stored wrapped values and changes
nothing further. -/
theorem wrapped_list_wrap_once (o : Nat) (bs : List Item) (i : Nat)
    (d : List (String × PVal)) (h : bs.get? i = some (Item.idict d)) :
    wlGetItem (manyMapper o) bs i =
      Except.ok (Item.iinst d (some o), bs.set i (Item.iinst d (some o))) ∧
    wlGetItem (manyMapper o) (bs.set i (Item.iinst d (some o))) i =
      Except.ok (Item.iinst d (some o), bs.set i (Item.iinst d (some o))) ∧
    (∀ l ws, mapWrap (manyMapper o) l = Except.ok ws →
      ∀ y ∈ ws, y.isDict = false) ∧
    (∀ w, (wlIterate w bs).2 = bs) ∧
    (wlIterate (manyMapper o) bs).1 = mapWrap (manyMapper o) bs ∧
    (∀ iL jL ws, iL ≤ jL → jL ≤ bs.length →
      ((bs.drop iL).take (jL - iL)).any Item.isDict = true →
      mapWrap (manyMapper o) ((bs.drop iL).take (jL - iL)) = Except.ok ws →
      wlGetSlice (manyMapper o) bs iL jL =
        Except.ok (ws, bs.take iL ++ ws ++ bs.drop jL) ∧
      wlGetSlice (manyMapper o) (bs.take iL ++ ws ++ bs.drop jL) iL jL =
        Except.ok (ws, bs.take iL ++ ws ++ bs.drop jL)) := by
  have hlt : i < bs.length := List.get?_eq_some.mp h |>.1
  refine ⟨?_, ?_, ?_, ?_, ?_, ?_⟩
  · unfold wlGetItem
    rw [h]
    rfl
  · unfold wlGetItem
    have hset : (bs.set i (Item.iinst d (some o))).get? i =
        some (Item.iinst d (some o)) := by
      rw [List.get?_eq_getElem?]
      rw [List.getElem?_set_self (by simpa using hlt)]
    rw [hset]
    rfl
  · intro l ws hws
    exact mapWrap_output_not_dict o l ws hws
  · intro w
    rfl
  · rfl
  · intro iL jL ws hij hj hdict hws
    have hlen_items : ((bs.drop iL).take (jL - iL)).length = jL - iL := by
      rw [List.length_take, List.length_drop]
      omega
    have hlen_ws : ws.length = jL - iL := by
      rw [mapWrap_length (manyMapper o) _ ws hws, hlen_items]
    have htakelen : (bs.take iL).length = iL := by
      rw [List.length_take]
      omega
    have hdrop : (bs.take iL ++ ws ++ bs.drop jL).drop iL =
        ws ++ bs.drop jL := by
      rw [List.append_assoc]
      exact List.drop_left' htakelen
    have hslice : ((bs.take iL ++ ws ++ bs.drop jL).drop iL).take (jL - iL) =
        ws := by
      rw [hdrop]
      exact List.take_left' hlen_ws
    have hno : ws.any Item.isDict = false := by
      rw [List.any_eq_false]
      intro x hx
      simp [mapWrap_output_not_dict o _ ws hws x hx]
    constructor
    · unfold wlGetSlice
      simp [hdict, hws]
    · unfold wlGetSlice
      simp only [hslice, hno]
      simp

/-- Witness for C7 on a backing list holding one raw record, exercising both
the indexed access and the slice access. -/
theorem wrapped_list_wrap_once_witness :
    wlGetItem (manyMapper 7) [Item.idict [(("a"), PVal.vInt 1)]] 0 =
      Except.ok (Item.iinst [(("a"), PVal.vInt 1)] (some 7),
        [Item.iinst [(("a"), PVal.vInt 1)] (some 7)]) ∧
    wlGetItem (manyMapper 7) [Item.iinst [(("a"), PVal.vInt 1)] (some 7)] 0 =
      Except.ok (Item.iinst [(("a"), PVal.vInt 1)] (some 7),
        [Item.iinst [(("a"), PVal.vInt 1)] (some 7)]) ∧
    wlGetSlice (manyMapper 7) [Item.idict [(("a"), PVal.vInt 1)]] 0 1 =
      Except.ok ([Item.iinst [(("a"), PVal.vInt 1)] (some 7)],
        [Item.idict [(("a"), PVal.vInt 1)]].take 0 ++
          [Item.iinst [(("a"), PVal.vInt 1)] (some 7)] ++
          [Item.idict [(("a"), PVal.vInt 1)]].drop 1) := by
  have h := wrapped_list_wrap_once 7 [Item.idict [(("a"), PVal.vInt 1)]] 0
    [(("a"), PVal.vInt 1)] (by decide)
  exact ⟨h.1, h.2.1,
    (h.2.2.2.2.2 0 1 [Item.iinst [(("a"), PVal.vInt 1)] (some 7)]
      (by decide) (by decide) (by decide) (by rfl)).1⟩

theorem mapWrap_mem_other (o : Nat) (v : PVal) (l : List Item)
    (h : Item.iother v ∈ l) :
    mapWrap (manyMapper o) l = Except.error WErr.invalidRelationData := by
  induction l with
  | nil => cases h
  | cons x xs ih =>
    rcases List.mem_cons.mp h with hx | hx
    · subst hx
      rfl
    · show (match manyMapper o x with
        | .error e => Except.error e
        | .ok y =>
          match mapWrap (manyMapper o) xs with
          | .error e => Except.error e
          | .ok ys => Except.ok (y :: ys)) = _
      rw [ih hx]
      cases x with
      | idict d => rfl
      | iinst f ow => rfl
      | iother w => rfl

/-- Claim C8: the wrapper of a `Many` collection passes an element that is
already a target-type instance through unchanged and raises the
invalid-relation-data `TypeError` on an element that is neither raw dict data
nor such an instance; consequently every access path that applies the wrapper
to such an element — full iteration, and slice access once the slice
triggers wrapping — surfaces exactly that error at wrap time. -/
theorem many_wrap_invalid_data (o : Nat) (f : List (String × PVal))
    (ow : Option Nat) (v : PVal) (bs : List Item)
    (hmem : Item.iother v ∈ bs) :
    manyMapper o (Item.iinst f ow) = Except.ok (Item.iinst f ow) ∧
    manyMapper o (Item.iother v) = Except.error WErr.invalidRelationData ∧
    (wlIterate (manyMapper o) bs).1 =
      Except.error WErr.invalidRelationData ∧
    (∀ i j, ((bs.drop i).take (j - i)).any Item.isDict = true →
      Item.iother v ∈ (bs.drop i).take (j - i) →
      wlGetSlice (manyMapper o) bs i j =
        Except.error WErr.invalidRelationData) := by
  refine ⟨rfl, rfl, ?_, ?_⟩
  · show mapWrap (manyMapper o) bs = _
    exact mapWrap_mem_other o v bs hmem
  · intro i j hdict hv
    have herr := mapWrap_mem_other o v ((bs.drop i).take (j - i)) hv
    unfold wlGetSlice
    simp [hdict, herr]

/-- Witness for C8 on a backing list holding one invalid element and one raw
record. -/
theorem many_wrap_invalid_data_witness :
    manyMapper 3 (Item.iinst [] none) = Except.ok (Item.iinst [] none) ∧
    (wlIterate (manyMapper 3)
        [Item.iother (PVal.vStr ("z")), Item.idict []]).1 =
      Except.error WErr.invalidRelationData := by
  have h := many_wrap_invalid_data 3 [] none (PVal.vStr ("z"))
    [Item.iother (PVal.vStr ("z")), Item.idict []] (by decide)
  exact ⟨h.1, h.2.2.1⟩

/-- A Python class object as far as `isinstance` is concerned: its identity
and its method-resolution-order ancestry (itself included). -/
structure PyTy where
  cid : Nat
  mro : List Nat
  deriving DecidableEq, Repr

/-- A model instance as far as `Model.__eq__` is concerned: its concrete
class and its resolved primary-key last value. -/
structure EqInst where
  ty : PyTy
  idv : PVal
  deriving DecidableEq, Repr

/-- Embedding of `Model.__eq__`: `isinstance(other, self.__class__) and
self._id == other._id` — `isinstance` holds when `self`'s class occurs in
`other`'s ancestry. -/
def modelEq (a b : EqInst) : Bool :=
  (b.ty.mro.contains a.ty.cid) && (a.idv == b.idv)

/-- Claim C9 counterexample: with a class `B` subclassing `A`, an `A`
instance compares equal to a `B` instance carrying the same resolved key
value although their concrete types differ — `isinstance` accepts
subclasses, so "same concrete type" is not necessary for equality. -/
theorem model_eq_subclass_counterexample :
    modelEq ⟨⟨0, [0]⟩, PVal.vInt 5⟩ ⟨⟨1, [1, 0]⟩, PVal.vInt 5⟩ = true ∧
    (⟨0, [0]⟩ : PyTy) ≠ ⟨1, [1, 0]⟩ := by
  decide

/-- Claim C9 as amended: `a == b` holds only if `a`'s concrete class occurs
in `b`'s ancestry (i.e. `b` is of the same type as `a` or of a subclass of
it) and the two resolved primary-key last values are identical. -/
theorem model_eq_only_if (a b : EqInst) (h : modelEq a b = true) :
    a.ty.cid ∈ b.ty.mro ∧ a.idv = b.idv := by
  unfold modelEq at h
  have h2 := Bool.and_eq_true .. |>.mp h
  constructor
  · simpa using h2.1
  · exact eq_of_beq h2.2

/-- Witness for C9's amended statement at two instances of the same class. -/
theorem model_eq_only_if_witness :
    (⟨⟨2, [2]⟩, PVal.vInt 9⟩ : EqInst).ty.cid ∈
      (⟨⟨2, [2]⟩, PVal.vInt 9⟩ : EqInst).ty.mro ∧
    (⟨⟨2, [2]⟩, PVal.vInt 9⟩ : EqInst).idv =
      (⟨⟨2, [2]⟩, PVal.vInt 9⟩ : EqInst).idv :=
  model_eq_only_if ⟨⟨2, [2]⟩, PVal.vInt 9⟩ ⟨⟨2, [2]⟩, PVal.vInt 9⟩ (by decide)
